import Mathlib

/-!
Verification of the docstring-parsing core of the `lucidoc` package.

The embedding below follows `lucidoc/docparse.py` and `lucidoc/doctags.py`.
Python strings are modelled as `List Char`; Python's `str.split(sep)`,
`str.strip()`, `str.lstrip()` and `str.startswith` are reimplemented with
their exact semantics.  Python exceptions raised by the parser are modelled
with `Except`.  The recursion of `_create_code_blocks` (which recurses on a
blank-stripped tail) is realised with a fuel parameter set to the number of
remaining lines at the call site, which bounds the recursion depth of the
original.
-/

deriving instance DecidableEq for Except

namespace Lucidoc

/-- A Python string (and in particular one line of a docstring). -/
abbrev Line := List Char

/-- Coerce a Lean string literal to the `List Char` model. -/
def str (s : String) : Line := s.toList

/-- The characters Python's `str.strip()` / `str.lstrip()` remove. -/
def pyWhitespace (c : Char) : Bool :=
  c = ' ' || c = '\t' || c = '\n' || c = '\r' || c = '\x0b' || c = '\x0c'

/-- Python `str.lstrip()`. -/
def lstripWS (l : Line) : Line := l.dropWhile pyWhitespace

/-- Python `str.rstrip()`. -/
def rstripWS (l : Line) : Line := (l.reverse.dropWhile pyWhitespace).reverse

/-- Python `str.strip()`. -/
def strip (l : Line) : Line := rstripWS (lstripWS l)

/-- `RstDocstringParser._is_blank`: `l.strip() == ""`. -/
def isBlank (l : Line) : Bool := (strip l).isEmpty

/-- Python `str.startswith`. -/
def startsWith (p l : Line) : Bool := p.isPrefixOf l

/-- `RST_EXAMPLE_TAG = ":Example:"`. -/
def rstExampleTag : Line := str ":Example:"

/-- `RstDocstringParser._past_desc`: the line starts with a colon. -/
def pastDesc (l : Line) : Bool := startsWith (str ":") l

/-- `RstDocstringParser._is_tag_start`: starts with `:` but is not the
example-section marker. -/
def isTagStart (l : Line) : Bool :=
  startsWith (str ":") l && !(startsWith rstExampleTag l)

/-- Python `str.split(c)` with a one-character separator: no merging of
adjacent separators and always at least one (possibly empty) chunk. -/
def splitOnChar (c : Char) : List Char → List (List Char)
  | [] => [[]]
  | x :: xs =>
    if x = c then [] :: splitOnChar c xs
    else
      match splitOnChar c xs with
      | [] => [[x]]
      | h :: t => (x :: h) :: t

/-- The closed set of docstring tags of `lucidoc/doctags.py`:
`ParTag(name, typename, description)`, `RetTag(typename, description)`,
`ErrTag(typename, description)`. -/
inductive DocTag where
  | par (name typename description : Line)
  | ret (typename description : Line)
  | err (typename description : Line)
deriving DecidableEq

/-- Exceptions the parser can raise (`LucidocError` raise sites in
`docparse.py`, plus the `IndexError` latent in `_parse_tag_start` when a
tag line has no second colon). -/
inductive PyErr where
  | emptyTagChunk
  | invalidTagStart (line : Line)
  | multipleReturns (n : Nat)
  | indexError
deriving DecidableEq

/-- The `tt` value computed by the prefix dispatch of `_parse_tag_start`. -/
inductive TagKind where
  | par
  | ret
  | err
deriving DecidableEq

/-- The keyword-prefix dispatch at the top of
`RstDocstringParser._parse_tag_start`: `:param` chooses `ParTag`,
`:returns`/`:return` choose `RetTag`, `:raise`/`:raises` choose `ErrTag`,
anything else is unrecognised. -/
def tagKindOf (line : Line) : Option TagKind :=
  if startsWith (str ":param") line then some .par
  else if startsWith (str ":returns") line || startsWith (str ":return") line then some .ret
  else if startsWith (str ":raise") line || startsWith (str ":raises") line then some .err
  else none

/-- `RstDocstringParser._parse_tag_start`: decode the first line of a tag
chunk.  `line.split(":")` yields `['', keyword+mid, ..., description]`;
for a parameter tag the name is the last space-separated token of the
middle part and the typename the tokens between keyword and name; for
return/error tags the typename is every token after the keyword. -/
def parseTagStart (line : Line) : Except PyErr DocTag :=
  match tagKindOf line with
  | none => .error (.invalidTagStart line)
  | some k =>
    match ((splitOnChar ':' line).drop 1).dropLast with
    | [] => .error .indexError
    | lp0 :: _ =>
      match k with
      | .par =>
        .ok (.par ((splitOnChar ' ' lp0).getLastD [])
          (List.intercalate (str " ") (((splitOnChar ' ' lp0).drop 1).dropLast))
          ((splitOnChar ':' line).getLastD []))
      | .ret =>
        .ok (.ret (List.intercalate (str " ") ((splitOnChar ' ' lp0).drop 1))
          ((splitOnChar ':' line).getLastD []))
      | .err =>
        .ok (.err (List.intercalate (str " ") ((splitOnChar ' ' lp0).drop 1))
          ((splitOnChar ':' line).getLastD []))

/-- Observation: the decode produced a `RetTag`. -/
def isRetOk : Except PyErr DocTag → Bool
  | .ok (.ret _ _) => true
  | _ => false

/-- Observation: the decode produced an `ErrTag`. -/
def isErrOk : Except PyErr DocTag → Bool
  | .ok (.err _ _) => true
  | _ => false

/-- Append continuation text to the last positional argument of a tag
(`args[-1] = args[-1] + " ".join(l.lstrip() for l in chunk[1:])`): in every
tag kind the last argument is the description. -/
def appendDesc (t : DocTag) (s : Line) : DocTag :=
  match t with
  | .par n tn d => .par n tn (d ++ s)
  | .ret tn d => .ret tn (d ++ s)
  | .err tn d => .err tn (d ++ s)

/-- `RstDocstringParser._get_tag`: build one tag from a chunk of lines. -/
def getTag (chunk : List Line) : Except PyErr DocTag :=
  match chunk with
  | [] => .error .emptyTagChunk
  | decl :: rest =>
    match parseTagStart decl with
    | .error e => .error e
    | .ok t =>
      if rest.isEmpty then .ok t
      else .ok (appendDesc t (List.intercalate (str " ") (rest.map lstripWS)))

/-- The `seek_past_head` helper of `RstDocstringParser._parse`: split the
line list into the head (taken until the first blank or tag-start line) and
the remainder (starting at that boundary line, if any). -/
def seekPastHead : List Line → List Line × List Line
  | [] => ([], [])
  | l :: ls =>
    if isBlank l || isTagStart l then ([], l :: ls)
    else
      let p := seekPastHead ls
      (l :: p.1, p.2)

/-- The tag-region loop of `RstDocstringParser._parse`: chunk the lines of
`post_desc` into raw tag blocks.  A blank line breaks out of the loop and
the remaining lines (`post_desc[i+1:]`) form the examples region (`some`);
running off the end leaves `first_non_tag_index = None` (`none`).  Each
non-blank line is stripped; a stripped tag-start line opens a new block,
any other stripped line continues the current block. -/
def tagLoop : List Line → List Line → List (List Line) × Option (List Line)
  | [], curr => ((if curr.isEmpty then [] else [curr]), none)
  | l :: ls, curr =>
    if isBlank l then ((if curr.isEmpty then [] else [curr]), some ls)
    else
      let l' := strip l
      if isTagStart l' then
        let p := tagLoop ls [l']
        ((if curr.isEmpty then p.1 else curr :: p.1), p.2)
      else tagLoop ls (curr ++ [l'])

/-- The section split computed by `RstDocstringParser._parse` before tag
decoding: the description text, the raw tag blocks, and the lines handed to
`_parse_example_lines` (empty when the loop ran off the end, i.e. when
`first_non_tag_index is None`). -/
structure Sections where
  desc : Line
  tagBlocks : List (List Line)
  exampleRegion : List Line
deriving DecidableEq

/-- The `detail_lines` of `_parse`: the non-blank lines following the head,
up to the first line that starts with a colon. -/
def detailLinesOf (rest : List Line) : List Line :=
  (rest.takeWhile (fun l => !(pastDesc l))).filter (fun l => !(isBlank l))

/-- The description assembled by `_parse`: the stripped head lines joined
with single spaces, followed (when detail lines exist) by a separating
blank line — omitted when the headline is empty — and the newline-joined
detail lines. -/
def descFrom (headLs rest : List Line) : Line :=
  if (detailLinesOf rest).isEmpty then List.intercalate (str " ") (headLs.map strip)
  else
    List.intercalate (str " ") (headLs.map strip)
      ++ (if (List.intercalate (str " ") (headLs.map strip)).isEmpty then [] else str "\n\n")
      ++ List.intercalate (str "\n") (detailLinesOf rest)

/-- The tag region of `_parse`: `post_desc` is the remainder from the first
colon-started line on; when it opens with a tag-start line the loop chunks
it into blocks and delimits the example region, otherwise there are no tag
blocks and the example region is all of `post_desc` (which is also what
`first_non_tag_index = 0` yields when `post_desc` is empty). -/
def tagRegion (rest : List Line) : List (List Line) × List Line :=
  match rest.dropWhile (fun l => !(pastDesc l)) with
  | [] => ([], [])
  | l :: ls =>
    if isTagStart l then
      ((tagLoop (l :: ls) []).1, (tagLoop (l :: ls) []).2.getD [])
    else ([], l :: ls)

/-- Description/tag-block/example-region split of `_parse` on the line list
of the docstring. -/
def sections (lines : List Line) : Sections :=
  ⟨descFrom (seekPastHead lines).1 (seekPastHead lines).2,
   (tagRegion (seekPastHead lines).2).1,
   (tagRegion (seekPastHead lines).2).2⟩

/-- The fenced-block delimiter used by `_create_code_blocks`. -/
def bookend : Line := str "```"

/-- The code-block directive token of `_create_code_blocks`. -/
def tagCodeBlock : Line := str ".. code-block::"

/-- The fence language computed by `_create_code_blocks` from a directive
line: `h.lstrip(tag_code_block).strip()`.  Note that Python's
`str.lstrip(chars)` removes leading characters drawn from the character
SET of its argument, not the argument as a prefix. -/
def fenceLang (h : Line) : Line :=
  strip (h.dropWhile (fun c => tagCodeBlock.contains c))

/-- Python truthiness fallback `ct or "console"` applied to the optional
code type (`None` and the empty string both fall back). -/
def orConsole (ct : Option Line) : Line :=
  match ct with
  | none => str "console"
  | some l => if l.isEmpty then str "console" else l

/-- The `add_curr` closure of `_create_code_blocks`: wrap the accumulated
content lines in fences annotated with the resolved language. -/
def addCurr (ct : Option Line) (chunk : List Line) (acc : List (List Line)) :
    List (List Line) :=
  acc ++ [((bookend ++ orConsole ct) :: chunk) ++ [bookend]]

/-- `RstDocstringParser._create_code_blocks`.  The Python original recurses
on `burn_blanks(lines[1:])`; the fuel argument (instantiated with the line
count, an upper bound on the recursion depth) makes that recursion
structural.  Every step consumes the first line: a marker or directive line
flushes the current block, burns following blanks and resets the code type
(directive lines set it to `fenceLang`); any other line is appended to the
current block unchanged. -/
def createCodeBlocks :
    Nat → List Line → Option Line → List Line → List (List Line) → List (List Line)
  | _, [], ct, curr, acc => if curr.isEmpty then acc else addCurr ct curr acc
  | 0, _ :: _, _, _, acc => acc
  | fuel + 1, h :: t, ct, curr, acc =>
    if startsWith rstExampleTag h || startsWith tagCodeBlock h then
      let acc' := if curr.isEmpty then acc else addCurr ct curr acc
      let t' := t.dropWhile isBlank
      let ct' := if startsWith tagCodeBlock h then some (fenceLang h) else none
      createCodeBlocks fuel t' ct' [] acc'
    else createCodeBlocks fuel t ct (curr ++ [h]) acc

/-- `RstDocstringParser._parse_example_lines`: `None` unless the region
starts with the `:Example:` marker; otherwise each block's lines joined
with newlines. -/
def parseExampleLines (ls : List Line) : Option (List Line) :=
  match ls with
  | [] => none
  | l :: _ =>
    if startsWith rstExampleTag l then
      some ((createCodeBlocks ls.length ls none [] []).map (List.intercalate (str "\n")))
    else none

/-- The `ParsedDocstringResult` namedtuple. -/
structure ParsedDocstringResult where
  doc : Line
  desc : Line
  params : List DocTag
  returns : Option DocTag
  raises : List DocTag
  examples : Option (List Line)
deriving DecidableEq

/-- Left-to-right decoding of the raw tag blocks, stopping at the first
exception, as the list comprehension
`[self._get_tag(chunk) for chunk in raw_tag_blocks]` does. -/
def mapTags : List (List Line) → Except PyErr (List DocTag)
  | [] => .ok []
  | c :: cs =>
    match getTag c with
    | .error e => .error e
    | .ok t =>
      match mapTags cs with
      | .error e => .error e
      | .ok ts => .ok (t :: ts)

/-- Does the tag use the `ParTag` constructor? -/
def isParTag : DocTag → Bool
  | .par _ _ _ => true
  | _ => false

/-- Does the tag use the `RetTag` constructor? -/
def isRetTag : DocTag → Bool
  | .ret _ _ => true
  | _ => false

/-- Does the tag use the `ErrTag` constructor? -/
def isErrTag : DocTag → Bool
  | .err _ _ => true
  | _ => false

/-- `RstDocstringParser._parse` on an already-split line list: decode the
tags of each block, partition them by kind, reject more than one return
tag, and assemble the result (`ret = ret[0] if ret else None`). -/
def parseLines (ds : Line) (lines : List Line) : Except PyErr ParsedDocstringResult :=
  match mapTags (sections lines).tagBlocks with
  | .error e => .error e
  | .ok tags =>
    if 1 < (tags.filter isRetTag).length then
      .error (.multipleReturns (tags.filter isRetTag).length)
    else
      .ok ⟨ds, (sections lines).desc, tags.filter isParTag,
        (tags.filter isRetTag).head?, tags.filter isErrTag,
        parseExampleLines (sections lines).exampleRegion⟩

/-- `RstDocstringParser._parse`: split the docstring on the (POSIX) line
separator and parse the lines. -/
def parse (ds : Line) : Except PyErr ParsedDocstringResult :=
  parseLines ds (splitOnChar '\n' ds)

/-- The list of tags decoded from a docstring (the `tags` intermediate of
`_parse`), used to state the return-tag multiplicity invariant. -/
def decodeTags (ds : Line) : Except PyErr (List DocTag) :=
  mapTags (sections (splitOnChar '\n' ds)).tagBlocks

/-- `RstDocstringParser.__call__` together with the memoisation of
`_parse`: the state is the `_last_seen` slot.  A cache hit (the stored
result's `doc` equals the requested docstring) returns the stored result
and leaves the slot alone; otherwise `_parse` runs, storing its result on
success and leaving the slot unchanged when it raises. -/
def rstParserCall (st : Option ParsedDocstringResult) (ds : Line) :
    Except PyErr ParsedDocstringResult × Option ParsedDocstringResult :=
  match st with
  | some r =>
    if r.doc = ds then (.ok r, some r)
    else
      match parse ds with
      | .ok r' => (.ok r', some r')
      | .error e => (.error e, st)
  | none =>
    match parse ds with
    | .ok r' => (.ok r', some r')
    | .error e => (.error e, none)

/-- A value handed to the Markdown tag renderer: one of the three tag
variants, or any other Python value (carrying only an identifying payload),
mirroring the renderer's dynamically typed argument. -/
inductive RenderInput where
  | tag (t : DocTag)
  | other (v : Line)
deriving DecidableEq

/-- The render-time failure: `TypeError("Invalid tag type: ...")`. -/
inductive RenderErr where
  | invalidTagType
deriving DecidableEq

/-- `MdTagRenderer.__call__`: one Markdown line per tag
(parameter: name, typename, description; return/error: typename,
description), `TypeError` on anything else. -/
def mdTagRenderer (x : RenderInput) : Except RenderErr Line :=
  match x with
  | .tag (.par n tn d) =>
    .ok (str "- `" ++ n ++ str "` (`" ++ tn ++ str "`): " ++ d)
  | .tag (.ret tn d) => .ok (str "- `" ++ tn ++ str "`: " ++ d)
  | .tag (.err tn d) => .ok (str "- `" ++ tn ++ str "`: " ++ d)
  | .other _ => .error .invalidTagType

/-- The concrete docstring of the spec's first scenario. -/
def dsSimple : Line :=
  str "Computes a value.\n\n:param int x: the input\n:return int: doubled value\n"

/-- The full parse result of `dsSimple` (note the descriptions keep the
space that follows the separating colon in the source line). -/
def simpleRes : ParsedDocstringResult :=
  ⟨dsSimple, str "Computes a value.",
    [.par (str "x") (str "int") (str " the input")],
    some (.ret (str "int") (str " doubled value")), [], none⟩

/-- A docstring carrying two return tags. -/
def dsMultiRet : Line := str "x\n\n:return int: a\n:returns str: b\n"

/-- The example-region lines of the spec's example scenario: the marker, a
blank, a `python` code-block directive, a blank, and one indented content
line. -/
def exLinesC5 : List Line :=
  [str ":Example:", str "", str ".. code-block:: python", str "", str "    x = 1"]

/-- A docstring whose single example marker is followed by two code-block
directive lines. -/
def dsTwoDirectives : Line :=
  str "Short desc.\n\n:return int: a\n\n:Example:\n\n.. code-block:: python\n\n.. code-block:: console\n\n    x = 1\n"

/-- The parse result of `dsTwoDirectives`: no error; the second directive
replaced the pending fence language (itself mangled by the character-set
strip to `nsole`). -/
def twoDirectivesRes : ParsedDocstringResult :=
  ⟨dsTwoDirectives, str "Short desc.", [], some (.ret (str "int") (str " a")),
    [], some [str "```nsole\n    x = 1\n\n```"]⟩

/-- Docstring pair of the keyword-spelling scenario, `:return` form. -/
def dsRetSpell : Line := str "d\n\n:return int: a\n"

/-- Docstring pair of the keyword-spelling scenario, `:returns` form. -/
def dsReturnsSpell : Line := str "d\n\n:returns int: a\n"

/-- A docstring whose very first line is the `:Example:` marker. -/
def dsMarkerFirst : Line := str ":Example:\n\n.. code-block:: python\n\n    x = 1\n"

/-- `dropWhile` skips over a leading block all of whose elements satisfy
the predicate. -/
theorem dropWhile_append_all {α : Type} {p : α → Bool} :
    ∀ (a l : List α), (∀ c ∈ a, p c = true) →
      (a ++ l).dropWhile p = l.dropWhile p := by
  intro a
  induction a with
  | nil => intro l _; rfl
  | cons x xs ih =>
    intro l h
    have hx : p x = true := h x (by simp)
    simp only [List.cons_append, List.dropWhile_cons_of_pos hx]
    exact ih l (fun c hc => h c (by simp [hc]))

/-- C1 (counterexample): on the spec's concrete docstring the parser does
NOT produce a `ParTag` with description `"the input"` — the text after the
colon keeps its leading space. -/
theorem c1_simple_scenario_counterexample :
    (parse dsSimple).toOption.map (fun r => r.params) ≠
      some [DocTag.par (str "x") (str "int") (str "the input")] := by
  decide

/-- C1 (amended): the docstring `"Computes a value.\n\n:param int x: the
input\n:return int: doubled value\n"` parses to description
`"Computes a value."`, exactly one `ParTag` with name `x`, typename `int`
and description `" the input"`, a `RetTag` with typename `int` and
description `" doubled value"` (the descriptions keep the space that
follows the separating colon), no `ErrTag`s and no examples. -/
theorem c1_simple_scenario : parse dsSimple = .ok simpleRes := by
  rfl

/-- C5 (counterexample): the parser does not de-indent example content:
on the spec's example region the single content line of the produced block
is NOT `x = 1`. -/
theorem c5_example_counterexample :
    parseExampleLines exLinesC5 ≠ some [str "```python\nx = 1\n```"] := by
  decide

/-- C5 (amended): on the example region `:Example:` / blank /
`.. code-block:: python` / blank / `    x = 1`, the parser returns one
example block: an opening fence tagged `python`, the content line with its
original indentation (`    x = 1`), and the closing fence — content lines
are carried over verbatim, not de-indented. -/
theorem c5_example_block :
    parseExampleLines exLinesC5 = some [str "```python\n    x = 1\n```"] := by
  rfl

/-- C6 (counterexample): a docstring whose single example marker is
followed by two code-block directive lines parses without raising any
error — there is no malformed-example-section failure. -/
theorem c6_two_directives_counterexample :
    parse dsTwoDirectives = .ok twoDirectivesRes := by
  rfl

/-- C6 (amended): with more than one code-type directive line under a
single example marker, example extraction does not fail: a later directive
line seen before any content replaces the pending fence language, and the
parse succeeds, here with one block fenced `nsole` (the language of the
last directive after the character-set strip). -/
theorem c6_two_directives_no_error :
    (parse dsTwoDirectives).toOption.map (fun r => r.examples) =
      some (some [str "```nsole\n    x = 1\n\n```"]) := by
  rfl

/-- C9: the fence language is obtained by stripping the directive line
with the character SET of `".. code-block::"` from the left (Python
`str.lstrip` semantics), not by removing that text as a prefix: for every
language name `L` the leading characters of `L` drawn from that set are
removed as well, so `console` yields `nsole` while `python` is left
intact, and an example block written with the `console` directive is
fenced as `nsole`. -/
theorem c9_fence_language_charset :
    (∀ L : Line, fenceLang (str ".. code-block:: " ++ L) =
        strip (L.dropWhile (fun c => tagCodeBlock.contains c))) ∧
    fenceLang (str ".. code-block:: console") = str "nsole" ∧
    fenceLang (str ".. code-block:: python") = str "python" ∧
    parseExampleLines [str ":Example:", str ".. code-block:: console", str "x"] =
      some [str "```nsole\nx\n```"] := by
  refine ⟨?_, by rfl, by rfl, by rfl⟩
  intro L
  unfold fenceLang
  rw [dropWhile_append_all (str ".. code-block:: ") L (by decide)]

/-- `_parse_tag_start` can only raise the invalid-tag-start or index
errors, never the multiple-returns one. -/
theorem parseTagStart_ne_multipleReturns (l : Line) (n : Nat) :
    parseTagStart l ≠ .error (.multipleReturns n) := by
  intro h
  unfold parseTagStart at h
  split at h
  · simp at h
  all_goals
    split at h <;> (try split at h) <;> simp at h

/-- `_get_tag` can only raise the empty-chunk, invalid-tag-start or index
errors, never the multiple-returns one. -/
theorem getTag_ne_multipleReturns (c : List Line) (n : Nat) :
    getTag c ≠ .error (.multipleReturns n) := by
  intro h
  unfold getTag at h
  match c, h with
  | [], h => simp at h
  | decl :: rest, h =>
    revert h
    rcases hp : parseTagStart decl with e | t
    · intro h
      simp only [hp] at h
      injection h with h1
      rw [h1] at hp
      exact parseTagStart_ne_multipleReturns decl n hp
    · intro h
      simp only [hp] at h
      split at h <;> simp at h

/-- The tag-decoding pass over the raw blocks never raises the
multiple-returns error (that check happens after decoding). -/
theorem mapTags_ne_multipleReturns :
    ∀ (bs : List (List Line)) (n : Nat), mapTags bs ≠ .error (.multipleReturns n) := by
  intro bs
  induction bs with
  | nil => intro n h; simp [mapTags] at h
  | cons c cs ih =>
    intro n h
    unfold mapTags at h
    revert h
    rcases hg : getTag c with e | t
    · intro h
      injection h with h1
      rw [h1] at hg
      exact getTag_ne_multipleReturns c n hg
    · rcases hm : mapTags cs with e | ts
      · intro h
        injection h with h1
        rw [h1] at hm
        exact ih n hm
      · intro h
        simp at h

/-- C2: parsing raises the multiple-returns `LucidocError` exactly when
the decoded tag list carries more than one `RetTag`; with zero or one
decoded `RetTag` the parse succeeds and the result's `returns` field is
the single decoded `RetTag` or `None`. -/
theorem c2_return_multiplicity (ds : Line) :
    ((∃ n, parse ds = .error (.multipleReturns n)) ↔
      (∃ ts, decodeTags ds = .ok ts ∧ 1 < (ts.filter isRetTag).length)) ∧
    (∀ ts, decodeTags ds = .ok ts → (ts.filter isRetTag).length ≤ 1 →
      (parse ds).toOption.map (fun r => r.returns) =
        some ((ts.filter isRetTag).head?)) := by
  constructor
  · constructor
    · rintro ⟨n, hn⟩
      unfold parse parseLines at hn
      revert hn
      rcases hmt : mapTags (sections (splitOnChar '\n' ds)).tagBlocks with e | ts
      · intro hn
        dsimp only at hn
        injection hn with h1
        rw [h1] at hmt
        exact absurd hmt (mapTags_ne_multipleReturns _ n)
      · intro hn
        dsimp only at hn
        by_cases hlen : 1 < (ts.filter isRetTag).length
        · exact ⟨ts, hmt, hlen⟩
        · rw [if_neg hlen] at hn
          simp at hn
    · rintro ⟨ts, hts, hlen⟩
      unfold decodeTags at hts
      unfold parse parseLines
      rw [hts]
      dsimp only
      rw [if_pos hlen]
      exact ⟨(ts.filter isRetTag).length, rfl⟩
  · intro ts hts hlen
    unfold decodeTags at hts
    unfold parse parseLines
    rw [hts]
    dsimp only
    rw [if_neg (by omega : ¬ 1 < (ts.filter isRetTag).length)]
    rfl

/-- C2 witness: the single-return docstring of the spec's scenario decodes
one `RetTag` and the parse result's `returns` field is exactly it. -/
theorem c2_return_multiplicity_witness :
    (parse dsSimple).toOption.map (fun r => r.returns) =
      some (some (DocTag.ret (str "int") (str " doubled value"))) :=
  (c2_return_multiplicity dsSimple).2
    [DocTag.par (str "x") (str "int") (str " the input"),
     DocTag.ret (str "int") (str " doubled value")]
    (by rfl) (by decide)

/-- A successful `_parse` stores the requested docstring in the result's
`doc` field (the cache key). -/
theorem parse_doc_eq {ds : Line} {r : ParsedDocstringResult}
    (h : parse ds = .ok r) : r.doc = ds := by
  unfold parse parseLines at h
  revert h
  rcases mapTags (sections (splitOnChar '\n' ds)).tagBlocks with e | ts <;> intro h
  · simp at h
  · dsimp only at h
    split at h
    · simp at h
    · injection h with h1
      rw [← h1]

/-- C3: calling the parser twice in succession on the same docstring
yields the very same result and leaves the same state (hence all six
fields pairwise identical); the state is the single most recently produced
result; a cached result is reused exactly when its `doc` equals (`==`) the
requested docstring, and otherwise a fresh `_parse` runs. -/
theorem c3_idempotent_memoization (st : Option ParsedDocstringResult) (ds : Line) :
    (∀ r₁ st₁, rstParserCall st ds = (.ok r₁, st₁) →
      rstParserCall st₁ ds = (.ok r₁, st₁) ∧ st₁ = some r₁) ∧
    (∀ r, st = some r → r.doc = ds → rstParserCall st ds = (.ok r, st)) ∧
    (∀ r, st = some r → r.doc ≠ ds →
      rstParserCall st ds =
        (match parse ds with
         | .ok r' => (.ok r', some r')
         | .error e => (.error e, st))) := by
  refine ⟨?_, ?_, ?_⟩
  · intro r₁ st₁ h
    have key : st₁ = some r₁ ∧ r₁.doc = ds := by
      cases st with
      | none =>
        unfold rstParserCall at h
        revert h
        rcases hp : parse ds with e | r' <;> intro h <;> dsimp only at h <;>
          simp only [Prod.mk.injEq] at h
        · exact absurd h.1 (by simp)
        · obtain ⟨h1, h2⟩ := h
          injection h1 with h1
          subst h1
          exact ⟨h2.symm, parse_doc_eq hp⟩
      | some r0 =>
        unfold rstParserCall at h
        dsimp only at h
        by_cases hdoc : r0.doc = ds
        · rw [if_pos hdoc] at h
          simp only [Prod.mk.injEq] at h
          obtain ⟨h1, h2⟩ := h
          injection h1 with h1
          subst h1
          exact ⟨h2.symm, hdoc⟩
        · rw [if_neg hdoc] at h
          revert h
          rcases hp : parse ds with e | r' <;> intro h <;> dsimp only at h <;>
            simp only [Prod.mk.injEq] at h
          · exact absurd h.1 (by simp)
          · obtain ⟨h1, h2⟩ := h
            injection h1 with h1
            subst h1
            exact ⟨h2.symm, parse_doc_eq hp⟩
    obtain ⟨hst, hdoc⟩ := key
    subst hst
    refine ⟨?_, rfl⟩
    unfold rstParserCall
    dsimp only
    rw [if_pos hdoc]
  · intro r hst hdoc
    subst hst
    unfold rstParserCall
    dsimp only
    rw [if_pos hdoc]
  · intro r hst hdoc
    subst hst
    unfold rstParserCall
    dsimp only
    rw [if_neg hdoc]

/-- C3 witness: after parsing the spec's concrete docstring from an empty
cache, the call returned its result, cached exactly it, and the immediate
second call reproduces both. -/
theorem c3_idempotent_memoization_witness :
    rstParserCall (some simpleRes) dsSimple = (.ok simpleRes, some simpleRes) ∧
    (some simpleRes : Option ParsedDocstringResult) = some simpleRes :=
  (c3_idempotent_memoization none dsSimple).1 simpleRes (some simpleRes) (by rfl)

/-- C7: when parsing raises, no result is returned and the memoization
slot is left exactly as it was — the parser never caches or returns a
partially populated result. -/
theorem c7_error_leaves_cache (st : Option ParsedDocstringResult) (ds : Line)
    (e : PyErr) (st' : Option ParsedDocstringResult)
    (h : rstParserCall st ds = (.error e, st')) : st' = st := by
  cases st with
  | none =>
    unfold rstParserCall at h
    revert h
    rcases parse ds with e' | r' <;> intro h <;> dsimp only at h <;>
      simp only [Prod.mk.injEq] at h
    · exact h.2.symm
    · exact absurd h.1 (by simp)
  | some r0 =>
    unfold rstParserCall at h
    dsimp only at h
    by_cases hdoc : r0.doc = ds
    · rw [if_pos hdoc] at h
      simp only [Prod.mk.injEq] at h
      exact absurd h.1 (by simp)
    · rw [if_neg hdoc] at h
      revert h
      rcases parse ds with e' | r' <;> intro h <;> dsimp only at h <;>
        simp only [Prod.mk.injEq] at h
      · exact h.2.symm
      · exact absurd h.1 (by simp)

/-- C7 witness: the two-return docstring raises; a previously cached
result survives the failed call untouched. -/
theorem c7_error_leaves_cache_witness :
    (rstParserCall (some simpleRes) dsMultiRet).2 = some simpleRes :=
  c7_error_leaves_cache (some simpleRes) dsMultiRet (.multipleReturns 2)
    (rstParserCall (some simpleRes) dsMultiRet).2 (by rfl)

/-- C8: the Markdown tag renderer is total over exactly the three tag
variants: a `ParTag` renders to a line containing its name, typename and
description, a `RetTag` or `ErrTag` to a line containing its typename and
description (one line whenever the fields are newline-free), and any value
outside the three variants is rejected with a `TypeError` rather than
passed through. -/
theorem c8_md_renderer_total :
    (∀ n tn d,
      mdTagRenderer (.tag (.par n tn d)) =
        .ok (str "- `" ++ n ++ str "` (`" ++ tn ++ str "`): " ++ d) ∧
      n <:+: (str "- `" ++ n ++ str "` (`" ++ tn ++ str "`): " ++ d) ∧
      tn <:+: (str "- `" ++ n ++ str "` (`" ++ tn ++ str "`): " ++ d) ∧
      d <:+: (str "- `" ++ n ++ str "` (`" ++ tn ++ str "`): " ++ d) ∧
      ('\n' ∉ n → '\n' ∉ tn → '\n' ∉ d →
        '\n' ∉ (str "- `" ++ n ++ str "` (`" ++ tn ++ str "`): " ++ d))) ∧
    (∀ tn d,
      mdTagRenderer (.tag (.ret tn d)) = .ok (str "- `" ++ tn ++ str "`: " ++ d) ∧
      tn <:+: (str "- `" ++ tn ++ str "`: " ++ d) ∧
      d <:+: (str "- `" ++ tn ++ str "`: " ++ d) ∧
      ('\n' ∉ tn → '\n' ∉ d → '\n' ∉ (str "- `" ++ tn ++ str "`: " ++ d))) ∧
    (∀ tn d,
      mdTagRenderer (.tag (.err tn d)) = .ok (str "- `" ++ tn ++ str "`: " ++ d) ∧
      tn <:+: (str "- `" ++ tn ++ str "`: " ++ d) ∧
      d <:+: (str "- `" ++ tn ++ str "`: " ++ d) ∧
      ('\n' ∉ tn → '\n' ∉ d → '\n' ∉ (str "- `" ++ tn ++ str "`: " ++ d))) ∧
    (∀ v, mdTagRenderer (.other v) = .error .invalidTagType) := by
  have hlit1 : '\n' ∉ str "- `" := by decide
  have hlit2 : '\n' ∉ str "` (`" := by decide
  have hlit3 : '\n' ∉ str "`): " := by decide
  have hlit4 : '\n' ∉ str "`: " := by decide
  refine ⟨fun n tn d => ⟨rfl, ?_, ?_, ?_, ?_⟩,
          fun tn d => ⟨rfl, ?_, ?_, ?_⟩,
          fun tn d => ⟨rfl, ?_, ?_, ?_⟩,
          fun v => rfl⟩
  · exact ⟨str "- `", str "` (`" ++ tn ++ str "`): " ++ d, by simp⟩
  · exact ⟨str "- `" ++ n ++ str "` (`", str "`): " ++ d, by simp⟩
  · exact ⟨str "- `" ++ n ++ str "` (`" ++ tn ++ str "`): ", [], by simp⟩
  · intro hn htn hd h
    simp only [List.mem_append] at h
    tauto
  · exact ⟨str "- `", str "`: " ++ d, by simp⟩
  · exact ⟨str "- `" ++ tn ++ str "`: ", [], by simp⟩
  · intro htn hd h
    simp only [List.mem_append] at h
    tauto
  · exact ⟨str "- `", str "`: " ++ d, by simp⟩
  · exact ⟨str "- `" ++ tn ++ str "`: ", [], by simp⟩
  · intro htn hd h
    simp only [List.mem_append] at h
    tauto

/-- C8 witness: a concrete parameter tag with newline-free fields renders
to a newline-free line. -/
theorem c8_md_renderer_total_witness :
    '\n' ∉ (str "- `" ++ str "x" ++ str "` (`" ++ str "int" ++ str "`): " ++ str " the input") :=
  (c8_md_renderer_total.1 (str "x") (str "int") (str " the input")).2.2.2.2
    (by decide) (by decide) (by decide)

/-- `split` always yields at least one chunk. -/
theorem splitOnChar_ne_nil (c : Char) (l : List Char) : splitOnChar c l ≠ [] := by
  induction l with
  | nil => simp [splitOnChar]
  | cons x xs ih =>
    unfold splitOnChar
    by_cases hx : x = c
    · rw [if_pos hx]; simp
    · rw [if_neg hx]
      revert ih
      rcases splitOnChar c xs with _ | ⟨h, t⟩ <;> intro ih <;> simp

/-- Splitting after prepending separator-free text only extends the first
chunk. -/
theorem splitOnChar_append {c : Char} :
    ∀ (a s : List Char), (∀ x ∈ a, x ≠ c) →
      splitOnChar c (a ++ s) = (splitOnChar c s).modifyHead (a ++ ·) := by
  intro a
  induction a with
  | nil =>
    intro s _
    simp only [List.nil_append]
    rcases hS : splitOnChar c s with _ | ⟨h, t⟩ <;> simp
  | cons y ys ih =>
    intro s hmem
    have hy : y ≠ c := hmem y (by simp)
    have hrec := ih s (fun x hx => hmem x (by simp [hx]))
    have hstep : splitOnChar c (y :: (ys ++ s)) =
        if y = c then [] :: splitOnChar c (ys ++ s)
        else match splitOnChar c (ys ++ s) with
          | [] => [[y]]
          | h :: t => (y :: h) :: t := rfl
    simp only [List.cons_append]
    rw [hstep, if_neg hy, hrec]
    rcases hS : splitOnChar c s with _ | ⟨h, t⟩
    · exact absurd hS (splitOnChar_ne_nil c s)
    · simp

/-- A string containing the separator splits into at least two chunks. -/
theorem two_le_splitOnChar_length {c : Char} :
    ∀ s : List Char, c ∈ s → 2 ≤ (splitOnChar c s).length := by
  intro s
  induction s with
  | nil => simp
  | cons x xs ih =>
    intro hmem
    unfold splitOnChar
    by_cases hx : x = c
    · rw [if_pos hx]
      have hne := List.length_pos.mpr (splitOnChar_ne_nil c xs)
      simp only [List.length_cons]
      omega
    · rw [if_neg hx]
      have hxs : c ∈ xs := by
        rcases List.mem_cons.mp hmem with h | h
        · exact absurd h.symm hx
        · exact h
      have h2 := ih hxs
      rcases hS : splitOnChar c xs with _ | ⟨h, t⟩
      · exact absurd hS (splitOnChar_ne_nil c xs)
      · rw [hS] at h2
        simpa using h2

/-- Shape of the split of a string that contains the separator. -/
theorem splitOnChar_mem_shape {c : Char} {s : List Char} (hs : c ∈ s) :
    ∃ h t0 ts, splitOnChar c s = h :: t0 :: ts := by
  have h2 := two_le_splitOnChar_length s hs
  rcases hS : splitOnChar c s with _ | ⟨h, rest⟩
  · rw [hS] at h2; simp at h2
  · rcases rest with _ | ⟨t0, ts⟩
    · rw [hS] at h2; simp at h2
    · exact ⟨h, t0, ts, rfl⟩

/-- Dropping the head cancels a head modification. -/
theorem drop_one_modifyHead {α : Type} (f : α → α) (l : List α) :
    (l.modifyHead f).drop 1 = l.drop 1 := by
  cases l <;> simp

/-- The prefix dispatch classifies a `:return`-started line as `RetTag`. -/
theorem tagKindOf_return_append (s : Line) :
    tagKindOf (str ":return" ++ s) = some .ret := by
  have h1 : startsWith (str ":param") (str ":return" ++ s) = false := rfl
  have h2 : startsWith (str ":return") (str ":return" ++ s) = true := by
    simp [startsWith, str]
  simp [tagKindOf, h1, h2]

/-- The prefix dispatch classifies a `:returns`-started line as `RetTag`. -/
theorem tagKindOf_returns_append (s : Line) :
    tagKindOf (str ":returns" ++ s) = some .ret := by
  have h1 : startsWith (str ":param") (str ":returns" ++ s) = false := rfl
  have h2 : startsWith (str ":returns") (str ":returns" ++ s) = true := by
    simp [startsWith, str]
  simp [tagKindOf, h1, h2]

/-- The prefix dispatch classifies a `:raise`-started line as `ErrTag`. -/
theorem tagKindOf_raise_append (s : Line) :
    tagKindOf (str ":raise" ++ s) = some .err := by
  have h1 : startsWith (str ":param") (str ":raise" ++ s) = false := rfl
  have h2 : startsWith (str ":returns") (str ":raise" ++ s) = false := rfl
  have h3 : startsWith (str ":return") (str ":raise" ++ s) = false := rfl
  have h4 : startsWith (str ":raise") (str ":raise" ++ s) = true := by
    simp [startsWith, str]
  simp [tagKindOf, h1, h2, h3, h4]

/-- The prefix dispatch classifies a `:raises`-started line as `ErrTag`. -/
theorem tagKindOf_raises_append (s : Line) :
    tagKindOf (str ":raises" ++ s) = some .err := by
  have h1 : startsWith (str ":param") (str ":raises" ++ s) = false := rfl
  have h2 : startsWith (str ":returns") (str ":raises" ++ s) = false := rfl
  have h3 : startsWith (str ":return") (str ":raises" ++ s) = false := rfl
  have h4 : startsWith (str ":raise") (str ":raises" ++ s) = true := rfl
  simp [tagKindOf, h1, h2, h3, h4]

/-- Evaluation of `_parse_tag_start` on a return-classified line `:` ++
keyword ++ rest: the keyword token is dropped, so typename and description
depend only on the text after the keyword. -/
theorem parseTagStart_ret_eval (kw s h t0 : Line) (ts : List Line)
    (hkind : tagKindOf (':' :: (kw ++ s)) = some .ret)
    (hkc : ∀ x ∈ kw, x ≠ ':')
    (hks : ∀ x ∈ kw, x ≠ ' ')
    (hS : splitOnChar ':' s = h :: t0 :: ts) :
    parseTagStart (':' :: (kw ++ s)) =
      .ok (.ret (List.intercalate (str " ") ((splitOnChar ' ' h).drop 1))
        (ts.getLastD t0)) := by
  have hsplit : splitOnChar ':' (':' :: (kw ++ s)) = [] :: (kw ++ h) :: t0 :: ts := by
    unfold splitOnChar
    rw [if_pos rfl, splitOnChar_append kw s hkc, hS]
    simp
  unfold parseTagStart
  rw [hkind]
  rw [hsplit]
  simp only [List.drop_succ_cons, List.drop_zero, List.dropLast_cons₂]
  rw [splitOnChar_append kw h hks, drop_one_modifyHead]
  simp [List.getLastD_cons]
  cases ts with
  | nil => simp
  | cons a l =>
    obtain ⟨y, hy⟩ := Option.isSome_iff_exists.mp
      (List.getLast?_isSome.mpr (by simp) : ((a :: l).getLast?).isSome)
    simp [hy]

/-- Evaluation of `_parse_tag_start` on an error-classified line, same
shape as `parseTagStart_ret_eval`. -/
theorem parseTagStart_err_eval (kw s h t0 : Line) (ts : List Line)
    (hkind : tagKindOf (':' :: (kw ++ s)) = some .err)
    (hkc : ∀ x ∈ kw, x ≠ ':')
    (hks : ∀ x ∈ kw, x ≠ ' ')
    (hS : splitOnChar ':' s = h :: t0 :: ts) :
    parseTagStart (':' :: (kw ++ s)) =
      .ok (.err (List.intercalate (str " ") ((splitOnChar ' ' h).drop 1))
        (ts.getLastD t0)) := by
  have hsplit : splitOnChar ':' (':' :: (kw ++ s)) = [] :: (kw ++ h) :: t0 :: ts := by
    unfold splitOnChar
    rw [if_pos rfl, splitOnChar_append kw s hkc, hS]
    simp
  unfold parseTagStart
  rw [hkind]
  rw [hsplit]
  simp only [List.drop_succ_cons, List.drop_zero, List.dropLast_cons₂]
  rw [splitOnChar_append kw h hks, drop_one_modifyHead]
  simp [List.getLastD_cons]
  cases ts with
  | nil => simp
  | cons a l =>
    obtain ⟨y, hy⟩ := Option.isSome_iff_exists.mp
      (List.getLast?_isSome.mpr (by simp) : ((a :: l).getLast?).isSome)
    simp [hy]

/-- C4: a tag line spelled with `:return` and the same line spelled with
`:returns` decode to the very same `RetTag` (equal typename and equal
description — the keyword token is excluded from the typename); likewise
`:raise` vs `:raises` decode to the same `ErrTag`; and on the concrete
docstring pair the parsed return tags agree. -/
theorem c4_keyword_spelling :
    (∀ s : Line, ':' ∈ s →
      parseTagStart (str ":return" ++ s) = parseTagStart (str ":returns" ++ s) ∧
      isRetOk (parseTagStart (str ":return" ++ s)) = true) ∧
    (∀ s : Line, ':' ∈ s →
      parseTagStart (str ":raise" ++ s) = parseTagStart (str ":raises" ++ s) ∧
      isErrOk (parseTagStart (str ":raise" ++ s)) = true) ∧
    ((parse dsRetSpell).toOption.map (fun r => r.returns) =
       (parse dsReturnsSpell).toOption.map (fun r => r.returns) ∧
     (parse dsRetSpell).toOption.map (fun r => r.returns) =
       some (some (DocTag.ret (str "int") (str " a")))) := by
  refine ⟨?_, ?_, by decide, by decide⟩
  · intro s hs
    obtain ⟨h, t0, ts, hS⟩ := splitOnChar_mem_shape hs
    have e1 : parseTagStart (str ":return" ++ s) =
        .ok (.ret (List.intercalate (str " ") ((splitOnChar ' ' h).drop 1))
          (ts.getLastD t0)) :=
      parseTagStart_ret_eval (str "return") s h t0 ts
        (tagKindOf_return_append s) (by decide) (by decide) hS
    have e2 : parseTagStart (str ":returns" ++ s) =
        .ok (.ret (List.intercalate (str " ") ((splitOnChar ' ' h).drop 1))
          (ts.getLastD t0)) :=
      parseTagStart_ret_eval (str "returns") s h t0 ts
        (tagKindOf_returns_append s) (by decide) (by decide) hS
    rw [e1, e2]
    simp [isRetOk]
  · intro s hs
    obtain ⟨h, t0, ts, hS⟩ := splitOnChar_mem_shape hs
    have e1 : parseTagStart (str ":raise" ++ s) =
        .ok (.err (List.intercalate (str " ") ((splitOnChar ' ' h).drop 1))
          (ts.getLastD t0)) :=
      parseTagStart_err_eval (str "raise") s h t0 ts
        (tagKindOf_raise_append s) (by decide) (by decide) hS
    have e2 : parseTagStart (str ":raises" ++ s) =
        .ok (.err (List.intercalate (str " ") ((splitOnChar ' ' h).drop 1))
          (ts.getLastD t0)) :=
      parseTagStart_err_eval (str "raises") s h t0 ts
        (tagKindOf_raises_append s) (by decide) (by decide) hS
    rw [e1, e2]
    simp [isErrOk]

/-- C4 witness: the concrete suffix `" int: a"` decodes under both return
spellings to the same `RetTag`. -/
theorem c4_keyword_spelling_witness :
    parseTagStart (str ":return" ++ str " int: a") =
      parseTagStart (str ":returns" ++ str " int: a") ∧
    isRetOk (parseTagStart (str ":return" ++ str " int: a")) = true :=
  c4_keyword_spelling.1 (str " int: a") (by decide)

/-- `dropWhile` cannot consume an element the predicate rejects. -/
theorem dropWhile_concat_ne_nil {α : Type} {p : α → Bool} {x : α}
    (hx : p x = false) : ∀ ys : List α, (ys ++ [x]).dropWhile p ≠ [] := by
  intro ys
  induction ys with
  | nil =>
    simp only [List.nil_append]
    rw [List.dropWhile_cons_of_neg (by simp [hx])]
    simp
  | cons y ys ih =>
    by_cases hy : p y = true
    · rw [List.cons_append, List.dropWhile_cons_of_pos hy]
      exact ih
    · rw [List.cons_append, List.dropWhile_cons_of_neg (by simpa using hy)]
      simp

/-- A line whose first character is not whitespace is not blank. -/
theorem isBlank_cons_false {x : Char} (xs : Line) (hx : pyWhitespace x = false) :
    isBlank (x :: xs) = false := by
  unfold isBlank strip lstripWS rstripWS
  rw [List.dropWhile_cons_of_neg (by simp [hx])]
  have h1 : (x :: xs).reverse = xs.reverse ++ [x] := by simp
  rw [h1]
  have h2 := dropWhile_concat_ne_nil hx xs.reverse
  simp only [List.isEmpty_eq_false, ne_eq, List.reverse_eq_nil_iff]
  exact h2

/-- `seek_past_head` splits the line list exactly into head and rest. -/
theorem seekPastHead_append :
    ∀ ls : List Line, (seekPastHead ls).1 ++ (seekPastHead ls).2 = ls := by
  intro ls
  induction ls with
  | nil => rfl
  | cons l ls ih =>
    by_cases hc : (isBlank l || isTagStart l) = true
    · simp [seekPastHead, hc]
    · have hc' : (isBlank l || isTagStart l) = false := by
        revert hc; cases (isBlank l || isTagStart l) <;> simp
      simp [seekPastHead, hc', ih]

/-- `dropWhile` consumes a list all of whose elements pass. -/
theorem dropWhile_eq_nil_of_all {α : Type} {p : α → Bool} :
    ∀ ls : List α, (∀ x ∈ ls, p x = true) → ls.dropWhile p = [] := by
  intro ls
  induction ls with
  | nil => intro _; rfl
  | cons x xs ih =>
    intro h
    rw [List.dropWhile_cons_of_pos (h x (by simp))]
    exact ih (fun y hy => h y (by simp [hy]))

/-- `takeWhile` keeps a list all of whose elements pass. -/
theorem takeWhile_eq_self_of_all {α : Type} {p : α → Bool} :
    ∀ ls : List α, (∀ x ∈ ls, p x = true) → ls.takeWhile p = ls := by
  intro ls
  induction ls with
  | nil => intro _; rfl
  | cons x xs ih =>
    intro h
    rw [List.takeWhile_cons_of_pos (h x (by simp))]
    rw [ih (fun y hy => h y (by simp [hy]))]

/-- Stripping whitespace from both ends leaves a contiguous piece of the
line. -/
theorem strip_piece (l : Line) : strip l <:+: l := by
  unfold strip rstripWS lstripWS
  have h1 : l.dropWhile pyWhitespace <:+ l := List.dropWhile_suffix _
  have h2 : ((l.dropWhile pyWhitespace).reverse.dropWhile pyWhitespace).reverse
      <+: l.dropWhile pyWhitespace := by
    have hs := List.dropWhile_suffix (l := (l.dropWhile pyWhitespace).reverse) pyWhitespace
    rw [show (l.dropWhile pyWhitespace).reverse.dropWhile pyWhitespace =
        ((l.dropWhile pyWhitespace).reverse.dropWhile pyWhitespace).reverse.reverse by simp] at hs
    exact List.reverse_suffix.mp hs
  exact h2.isInfix.trans h1.isInfix

/-- Every member of a joined list is a contiguous piece of the join. -/
theorem mem_infix_intercalate (sep : Line) :
    ∀ (xs : List Line) (x : Line), x ∈ xs → x <:+: List.intercalate sep xs := by
  intro xs
  induction xs with
  | nil => simp
  | cons y ys ih =>
    intro x hx
    rcases ys with _ | ⟨z, zs⟩
    · have hx' : x = y := by simpa using hx
      subst hx'
      have h1 : List.intercalate sep [x] = x := by simp [List.intercalate]
      rw [h1]
    · have hic : List.intercalate sep (y :: z :: zs) =
          y ++ (sep ++ List.intercalate sep (z :: zs)) := by
        simp [List.intercalate]
      rcases List.mem_cons.mp hx with h | h
      · subst h
        rw [hic]
        exact (List.prefix_append x _).isInfix
      · have hin := ih x h
        rw [hic]
        exact hin.trans ((List.suffix_append sep _).isInfix.trans
          (List.suffix_append y _).isInfix)

/-- C10: when the very first line of the docstring starts with the
`:Example:` marker (and no later line starts with a colon), the head scan
does not classify the marker as a tag-start line, the marker is absorbed
into the headline, the lines after the head become the description's
detail text (every line appears, stripped, inside the description), and
the parse succeeds with `examples = None` — no example block is
produced. -/
theorem c10_marker_first_line (ds l₀ : Line) (rest : List Line)
    (hsplit : splitOnChar '\n' ds = l₀ :: rest)
    (hmark : startsWith rstExampleTag l₀ = true)
    (hrest : ∀ l ∈ rest, startsWith (str ":") l = false) :
    isTagStart l₀ = false ∧
    (seekPastHead (splitOnChar '\n' ds)).1.head? = some l₀ ∧
    (parse ds).toOption.map (fun r => r.examples) = some none ∧
    (parse ds).toOption.map (fun r => r.desc) =
      some (descFrom (seekPastHead (splitOnChar '\n' ds)).1
        (seekPastHead (splitOnChar '\n' ds)).2) ∧
    (∀ l ∈ rest, strip l <:+:
      descFrom (seekPastHead (splitOnChar '\n' ds)).1
        (seekPastHead (splitOnChar '\n' ds)).2) := by
  have hts : isTagStart l₀ = false := by
    unfold isTagStart
    rw [hmark]
    simp
  have hcolon : startsWith (str ":") l₀ = true := by
    rw [startsWith, List.isPrefixOf_iff_prefix]
    rw [startsWith, List.isPrefixOf_iff_prefix] at hmark
    exact List.IsPrefix.trans (by decide) hmark
  obtain ⟨t0, hl0⟩ : ∃ t, l₀ = ':' :: t := by
    rw [startsWith, List.isPrefixOf_iff_prefix] at hcolon
    rcases hcolon with ⟨t, ht⟩
    exact ⟨t, by rw [← ht]; exact rfl⟩
  have hblank : isBlank l₀ = false := by
    rw [hl0]
    exact isBlank_cons_false t0 (by decide)
  have hcond : (isBlank l₀ || isTagStart l₀) = false := by
    rw [hblank, hts]
    rfl
  have hseek : seekPastHead (l₀ :: rest) =
      (l₀ :: (seekPastHead rest).1, (seekPastHead rest).2) := by
    have hstep : seekPastHead (l₀ :: rest) =
        if isBlank l₀ || isTagStart l₀ then ([], l₀ :: rest)
        else (l₀ :: (seekPastHead rest).1, (seekPastHead rest).2) := rfl
    rw [hstep, hcond]
    simp
  have hmem2 : ∀ l ∈ (seekPastHead rest).2, l ∈ rest := by
    intro l hl
    have hap := seekPastHead_append rest
    rw [← hap]
    exact List.mem_append.mpr (Or.inr hl)
  have hdrop : (seekPastHead rest).2.dropWhile (fun l => !(pastDesc l)) = [] := by
    apply dropWhile_eq_nil_of_all
    intro l hl
    simp [pastDesc, hrest l (hmem2 l hl)]
  have hreg : tagRegion (seekPastHead rest).2 = ([], []) := by
    unfold tagRegion
    rw [hdrop]
  have hsec : sections (l₀ :: rest) =
      ⟨descFrom (l₀ :: (seekPastHead rest).1) (seekPastHead rest).2, [], []⟩ := by
    unfold sections
    rw [hseek]
    dsimp only
    rw [hreg]
  refine ⟨hts, ?_, ?_, ?_, ?_⟩
  · rw [hsplit, hseek]
    rfl
  · unfold parse parseLines
    rw [hsplit, hsec]
    rfl
  · unfold parse parseLines
    rw [hsplit, hseek, hsec]
    rfl
  · simp only [hsplit, hseek]
    intro l hl
    have hap := seekPastHead_append rest
    have hl' : l ∈ (seekPastHead rest).1 ++ (seekPastHead rest).2 := by
      rw [hap]
      exact hl
    rcases List.mem_append.mp hl' with h1 | h2
    · have hmm : strip l ∈ (l₀ :: (seekPastHead rest).1).map strip :=
        List.mem_map_of_mem strip (by simp [h1])
      have hH := mem_infix_intercalate (str " ") _ _ hmm
      unfold descFrom
      by_cases hd : (detailLinesOf (seekPastHead rest).2).isEmpty = true
      · rw [if_pos hd]
        exact hH
      · rw [if_neg hd]
        exact hH.trans
          (((List.prefix_append _ _).trans (List.prefix_append _ _)).isInfix)
    · by_cases hb : isBlank l = true
      · have hnil : strip l = [] := by
          unfold isBlank at hb
          exact List.isEmpty_iff.mp hb
        rw [hnil]
        exact List.nil_infix
      · have htake : (seekPastHead rest).2.takeWhile (fun l => !(pastDesc l)) =
            (seekPastHead rest).2 :=
          takeWhile_eq_self_of_all _
            (fun x hx => by simp [pastDesc, hrest x (hmem2 x hx)])
        have hldet : l ∈ detailLinesOf (seekPastHead rest).2 := by
          unfold detailLinesOf
          rw [htake]
          exact List.mem_filter.mpr ⟨h2, by simpa using hb⟩
        have hdne : (detailLinesOf (seekPastHead rest).2).isEmpty = false := by
          rw [List.isEmpty_eq_false]
          exact List.ne_nil_of_mem hldet
        have hDtl := mem_infix_intercalate (str "\n") _ _ hldet
        unfold descFrom
        rw [if_neg (by rw [hdne]; simp)]
        exact (strip_piece l).trans (hDtl.trans ((List.suffix_append _ _).isInfix))

/-- C10 witness: the concrete docstring whose first line is `:Example:`
parses with no examples. -/
theorem c10_marker_first_line_witness :
    (parse dsMarkerFirst).toOption.map (fun r => r.examples) = some none :=
  (c10_marker_first_line dsMarkerFirst (str ":Example:")
    [str "", str ".. code-block:: python", str "", str "    x = 1", str ""]
    (by decide) (by decide) (by decide)).2.2.1

end Lucidoc
